import Mathlib

/-!
Verification of the whisper-transcriber-telegram-bot core against its
natural-language specification.

The development embeds the Python source shallowly:
* floating-point second values are modelled as exact rationals (`ℚ`);
  Python `int(_)` (truncation toward zero), `_ // _` (floor division) and
  `_ % _` (Python modulus) become `pyTrunc`, `pyFloorDiv` and `pyMod`;
* Python strings are modelled as `String` (a wrapper of `List Char`);
  decimal rendering of an integer with zero padding (`f"{n:02}"`) becomes
  `pyFormatInt`;
* file writes performed by `save_chutes_outputs` are modelled as the ordered
  list of `(path, content)` pairs the function would write, together with the
  `created_files` mapping it returns;
* the network call of `transcribe_with_chutes` is modelled by an explicit
  environment describing the outcomes of the file check, the file read, the
  POST request and the JSON decoding.
-/

/-- Decimal digit character for `d < 10` (`d = 9` also catches `d ≥ 10`,
which never occurs for arguments of the form `n % 10`). -/
def digitChar (d : ℕ) : Char :=
  match d with
  | 0 => '0' | 1 => '1' | 2 => '2' | 3 => '3' | 4 => '4'
  | 5 => '5' | 6 => '6' | 7 => '7' | 8 => '8' | _ => '9'

/-- Fuel-driven big-endian decimal digit accumulator (mirrors the structure of
`Nat.toDigitsCore`, i.e. of Python's decimal rendering of a nonnegative int). -/
def natDigitsAux : ℕ → ℕ → List Char → List Char
  | 0, _, acc => acc
  | fuel + 1, n, acc =>
    if n < 10 then digitChar n :: acc
    else natDigitsAux fuel (n / 10) (digitChar (n % 10) :: acc)

/-- Big-endian decimal digits of a natural number. -/
def natDigits (n : ℕ) : List Char := natDigitsAux (n + 1) n []

/-- Left-pad a character list with `'0'` up to width `w`
(the behaviour of Python's `f"{n:0w}"` on the digit part). -/
def zfill (w : ℕ) (s : List Char) : List Char :=
  List.replicate (w - s.length) '0' ++ s

/-- Python `f"{n:0w}"` for an int `n`: zero-padded decimal, the sign counted
in the width and placed before the padding. -/
def pyFormatInt (w : ℕ) (n : ℤ) : List Char :=
  if n < 0 then '-' :: zfill (w - 1) (natDigits n.natAbs)
  else zfill w (natDigits n.natAbs)

/-- One step of decimal accumulation. -/
def digitStep (a : ℕ) (c : Char) : ℕ := a * 10 + (c.toNat - 48)

/-- Value of a big-endian decimal digit string. -/
def digitsToNat (l : List Char) : ℕ := l.foldl digitStep 0

/-- ASCII decimal digit test. -/
def isDigitChar (c : Char) : Bool := 48 ≤ c.toNat && c.toNat ≤ 57

/-- ASCII whitespace test (the characters Python's `str.strip` removes that
occur in configuration strings). -/
def isSpaceChar (c : Char) : Bool := c = ' ' || c = '\t' || c = '\n' || c = '\r'

/-- Model of Python `str.strip()`. -/
def trimChars (l : List Char) : List Char :=
  ((l.dropWhile isSpaceChar).reverse.dropWhile isSpaceChar).reverse

/-- Model of Python `str.split(c)` for a one-character separator. -/
def splitOnChar (c : Char) : List Char → List (List Char)
  | [] => [[]]
  | x :: xs =>
    if x = c then [] :: splitOnChar c xs
    else
      match splitOnChar c xs with
      | [] => [[x]]
      | g :: gs => (x :: g) :: gs

/-- Does `l` start with `pat`? -/
def startsWithList : List Char → List Char → Bool
  | [], _ => true
  | _ :: _, [] => false
  | p :: ps, x :: xs => p = x && startsWithList ps xs

/-- Model of Python's `pat in l` substring test. -/
def containsSubList (pat : List Char) : List Char → Bool
  | [] => pat.isEmpty
  | x :: xs => startsWithList pat (x :: xs) || containsSubList pat xs

/-- Python `int(x)` on a float modelled as a rational: truncation toward 0. -/
def pyTrunc (q : ℚ) : ℤ := if q < 0 then -⌊-q⌋ else ⌊q⌋

/-- Python `x // y` on floats modelled as rationals: `floor(x / y)`
returned as a (rational-valued) number, as Python returns a float. -/
def pyFloorDiv (a b : ℚ) : ℚ := (⌊a / b⌋ : ℚ)

/-- Python `x % y` on floats modelled as rationals: `x - y * floor(x / y)`. -/
def pyMod (a b : ℚ) : ℚ := a - b * (⌊a / b⌋ : ℚ)

/-- `format_timestamp` from `src/chutes_handler.py`:
`HH:MM:SS<sep>mmm` with `hours = int(seconds // 3600)`,
`minutes = int((seconds % 3600) // 60)`, `secs = int(seconds % 60)`,
`millis = int((seconds - int(seconds)) * 1000)`, each rendered with
Python zero-padded field widths 2, 2, 2 and 3. -/
def format_timestamp (seconds : ℚ) (separator : Char) : String :=
  String.mk
    (pyFormatInt 2 (pyTrunc (pyFloorDiv seconds 3600)) ++ ':' ::
      (pyFormatInt 2 (pyTrunc (pyFloorDiv (pyMod seconds 3600) 60)) ++ ':' ::
        (pyFormatInt 2 (pyTrunc (pyMod seconds 60)) ++ separator ::
          pyFormatInt 3 (pyTrunc ((seconds - (pyTrunc seconds : ℚ)) * 1000)))))

/-- An ASR segment as consumed by `save_chutes_outputs`:
`{'start': float, 'end': float, 'text': str}`. -/
structure Segment where
  start : ℚ
  stop : ℚ
  text : String
deriving Repr, DecidableEq

/-- Model of Python `str.strip()` on `String`. -/
def strip (s : String) : String := String.mk (trimChars s.data)

/-- The SRT body loop of `save_chutes_outputs`: for each segment, starting at
index `i`, `f"{i}\n{start} --> {end}\n{text}\n\n"` with comma timestamps and
stripped text. -/
def srtBody : ℕ → List Segment → String
  | _, [] => ""
  | i, seg :: rest =>
    String.mk (natDigits i) ++ "\n" ++ format_timestamp seg.start ',' ++ " --> " ++
      format_timestamp seg.stop ',' ++ "\n" ++ strip seg.text ++ "\n\n" ++
      srtBody (i + 1) rest

/-- The full SRT text written by `save_chutes_outputs` (enumeration starts
at 1). -/
def to_srt (segments : List Segment) : String := srtBody 1 segments

/-- The VTT body loop of `save_chutes_outputs`: per segment,
`f"{start} --> {end}\n{text}\n\n"` with dot timestamps and stripped text. -/
def vttBody : List Segment → String
  | [] => ""
  | seg :: rest =>
    format_timestamp seg.start '.' ++ " --> " ++ format_timestamp seg.stop '.' ++
      "\n" ++ strip seg.text ++ "\n\n" ++ vttBody rest

/-- The full VTT text written by `save_chutes_outputs`: the `WEBVTT` header,
a blank line, then the segment blocks. -/
def to_vtt (segments : List Segment) : String := "WEBVTT\n\n" ++ vttBody segments

/-- The result dictionary consumed by `save_chutes_outputs`; `none` models an
absent key (`result.get('text', '')` / `result.get('segments', [])`). -/
structure ChutesResult where
  text : Option String
  segments : Option (List Segment)

/-- `os.path.join(dir, name)` for the simple two-component case used here. -/
def pathJoin (dir name : String) : String := dir ++ "/" ++ name

/-- Effect trace of `save_chutes_outputs`: the file writes `(path, content)`
in program order, and the returned `created_files` mapping as an ordered
association list `(format tag, path)`. -/
structure SaveOutcome where
  writes : List (String × String)
  created_files : List (String × String)
deriving Repr

/-- `save_chutes_outputs` from `src/chutes_handler.py`: writes `<base>.txt`
when `result.get('text','')` is truthy, then `<base>.srt` and `<base>.vtt`
when `result.get('segments',[])` is truthy, returning the mapping of the
formats actually written. -/
def save_chutes_outputs (result : ChutesResult) (output_dir base_filename : String) :
    SaveOutcome :=
  let text := result.text.getD ""
  let txtPart : SaveOutcome :=
    if text ≠ "" then
      let txt_path := pathJoin output_dir (base_filename ++ ".txt")
      ⟨[(txt_path, text)], [("txt", txt_path)]⟩
    else ⟨[], []⟩
  let segments := result.segments.getD []
  let subPart : SaveOutcome :=
    if segments ≠ [] then
      let srt_path := pathJoin output_dir (base_filename ++ ".srt")
      let vtt_path := pathJoin output_dir (base_filename ++ ".vtt")
      ⟨[(srt_path, to_srt segments), (vtt_path, to_vtt segments)],
        [("srt", srt_path), ("vtt", vtt_path)]⟩
    else ⟨[], []⟩
  ⟨txtPart.writes ++ subPart.writes, txtPart.created_files ++ subPart.created_files⟩

/-- Environment of one `transcribe_with_chutes` call: whether
`os.path.exists(audio_path)` holds, whether opening/reading the file
succeeds, whether the POST raises a transport exception, the HTTP status,
and the decoded JSON body (`none` models a decoding exception). -/
structure ChutesEnv where
  audio_exists : Bool
  read_ok : Bool
  post_exn : Bool
  status : ℕ
  json_ok : Option ChutesResult

/-- `transcribe_with_chutes` from `src/chutes_handler.py`, modelled over an
explicit effect environment. The first component is the returned value
(`none` = the Python `None` failure indicator); the second component is the
list of request payload languages actually POSTed (so its length is the
number of attempts). A `some "auto"` language hint is normalized to `none`
before the payload is built. -/
def transcribe_with_chutes (env : ChutesEnv) (language : Option String) :
    Option ChutesResult × List (Option String) :=
  if env.audio_exists = false then (none, [])
  else if env.read_ok = false then (none, [])
  else
    let lang := if language = some "auto" then none else language
    if env.post_exn then (none, [lang])
    else if env.status = 200 then
      match env.json_ok with
      | some r => (some r, [lang])
      | none => (none, [lang])
    else (none, [lang])

/-- Modelled from the spec: `config_loader.py` is not part of the sources
(only its tests are), so `ConfigLoader.get_allowed_group_ids` is modelled
from §4.1 of the specification: split the raw configuration string on
commas, strip surrounding whitespace from each token, convert each token
with Python `int(...)` (modelled for ASCII tokens of an optional sign
followed by decimal digits), silently discarding tokens that fail
conversion, preserving order. -/
def parseIntToken (l : List Char) : Option ℤ :=
  match l with
  | '-' :: rest =>
    if rest ≠ [] ∧ rest.all isDigitChar then some (-(digitsToNat rest : ℤ)) else none
  | '+' :: rest =>
    if rest ≠ [] ∧ rest.all isDigitChar then some ((digitsToNat rest : ℤ)) else none
  | _ =>
    if l ≠ [] ∧ l.all isDigitChar then some ((digitsToNat l : ℤ)) else none

/-- Modelled from the spec: the parse of the allow-list configuration string
(`ConfigLoader.get_allowed_group_ids`, absent from the sources). -/
def get_allowed_group_ids (raw : String) : List ℤ :=
  (splitOnChar ',' raw.data).filterMap (fun tok => parseIntToken (trimChars tok))

/-- Modelled from the spec: `ConfigLoader.is_group_allowed` (absent from the
sources): true unconditionally when the allow-list is empty, otherwise
membership. -/
def is_group_allowed (chat_id : ℤ) (allowed : List ℤ) : Bool :=
  if allowed.isEmpty then true else allowed.contains chat_id

/-- A Telegram message entity as used by mention resolution: its `type`
string, character offset and length into the message text, and (for
`text_mention`) the resolved user's username. -/
structure MessageEntity where
  type : String
  offset : ℕ
  length : ℕ
  user : Option String

/-- Python `text[off : off + len]` character slicing. -/
def sliceAt (text : String) (off len : ℕ) : String :=
  String.mk ((text.data.drop off).take len)

/-- Modelled from the spec: the per-entity test of mention resolution
(§4.2 step 3, the bot shell source being absent): a `"mention"` entity
matches when the declared slice of the text equals `"@" + bot_handle`;
a `"text_mention"` entity matches when the resolved user's handle equals
`bot_handle`; other kinds never match. -/
def entityMatches (text handle : String) (e : MessageEntity) : Bool :=
  if e.type = "mention" then sliceAt text e.offset e.length == "@" ++ handle
  else if e.type = "text_mention" then e.user == some handle
  else false

/-- Modelled from the spec: `is_addressed` (§4.2, the bot shell source being
absent): true immediately in private chats; otherwise true on a literal
substring match of `"@" + bot_handle` in a non-empty text; otherwise scan
the entities in order for a matching `mention` or `text_mention`. -/
def is_addressed (chat_type text : String) (entities : List MessageEntity)
    (bot_handle : String) : Bool :=
  if chat_type = "private" then true
  else if !(text == "") && containsSubList ("@" ++ bot_handle).data text.data then true
  else entities.any (entityMatches text bot_handle)

/-- Modelled from the spec: the full admission predicate (§4.2): addressed
AND replying to a message AND that message carries an audio-like payload. -/
def should_process (chat_type text : String) (entities : List MessageEntity)
    (bot_handle : String) (has_reply reply_payload_is_audio_like : Bool) : Bool :=
  is_addressed chat_type text entities bot_handle && has_reply &&
    reply_payload_is_audio_like

/-- Modelled from the spec: re-parsing of a serialized `HH:MM:SS<sep>mmm`
timestamp (§8 round-trip property; no parser exists in the sources): split
on `':'` into three fields, split the last on the separator, require all
four fields to be non-empty digit strings, and rebuild the seconds value. -/
def parse_timestamp (sep : Char) (s : String) : Option ℚ :=
  match splitOnChar ':' s.data with
  | [hs, ms, rest] =>
    match splitOnChar sep rest with
    | [ss, frac] =>
      if hs ≠ [] ∧ hs.all isDigitChar ∧ ms ≠ [] ∧ ms.all isDigitChar ∧
          ss ≠ [] ∧ ss.all isDigitChar ∧ frac ≠ [] ∧ frac.all isDigitChar then
        some ((digitsToNat hs : ℚ) * 3600 + (digitsToNat ms : ℚ) * 60 +
          (digitsToNat ss : ℚ) + (digitsToNat frac : ℚ) / 1000)
      else none
    | _ => none
  | _ => none

/-! ### Arithmetic lemmas about the Python numeric primitives -/

theorem pyTrunc_intCast (z : ℤ) : pyTrunc (z : ℚ) = z := by
  unfold pyTrunc
  split
  · rw [← Int.cast_neg, Int.floor_intCast, neg_neg]
  · exact Int.floor_intCast z

theorem pyTrunc_eq_floor {q : ℚ} (h : 0 ≤ q) : pyTrunc q = ⌊q⌋ := by
  unfold pyTrunc
  rw [if_neg (not_lt.mpr h)]

theorem floor_div_pos (a : ℚ) (d : ℤ) (hd : 0 < d) : ⌊a / (d : ℚ)⌋ = ⌊a⌋ / d := by
  have hdq : (0 : ℚ) < (d : ℚ) := by exact_mod_cast hd
  have key : ∀ z : ℤ, z ≤ ⌊a / (d : ℚ)⌋ ↔ z ≤ ⌊a⌋ / d := by
    intro z
    rw [Int.le_floor, le_div_iff₀ hdq, Int.le_ediv_iff_mul_le hd, Int.le_floor]
    push_cast
    exact Iff.rfl
  exact le_antisymm ((key _).mp le_rfl) ((key _).mpr le_rfl)

theorem floor_pyMod (s : ℚ) (d : ℤ) (hd : 0 < d) : ⌊pyMod s (d : ℚ)⌋ = ⌊s⌋ % d := by
  unfold pyMod
  have h1 : (d : ℚ) * (⌊s / (d : ℚ)⌋ : ℚ) = ((d * ⌊s / (d : ℚ)⌋ : ℤ) : ℚ) := by
    push_cast; ring
  rw [h1, Int.floor_sub_int, floor_div_pos s d hd, Int.emod_def]

theorem pyMod_nonneg (s : ℚ) (d : ℚ) (hd : 0 < d) : 0 ≤ pyMod s d := by
  unfold pyMod
  rw [sub_nonneg]
  have h1 : (⌊s / d⌋ : ℚ) ≤ s / d := Int.floor_le _
  calc d * (⌊s / d⌋ : ℚ) ≤ d * (s / d) := mul_le_mul_of_nonneg_left h1 hd.le
    _ = s := by field_simp

/-! ### Lemmas about decimal digit strings -/

theorem natDigitsAux_eq (n : ℕ) :
    ∀ fuel acc, n < fuel → natDigitsAux fuel n acc = natDigits n ++ acc := by
  induction n using Nat.strong_induction_on with
  | _ n IH =>
    intro fuel acc hfuel
    match fuel with
    | 0 => omega
    | f + 1 =>
      by_cases h10 : n < 10
      · simp [natDigitsAux, natDigits, h10]
      · have hdiv : n / 10 < n := Nat.div_lt_self (by omega) (by omega)
        have hA : natDigitsAux (f + 1) n acc =
            natDigitsAux f (n / 10) (digitChar (n % 10) :: acc) := by
          simp [natDigitsAux, h10]
        have hB : natDigits n = natDigits (n / 10) ++ [digitChar (n % 10)] := by
          unfold natDigits
          rw [show natDigitsAux (n + 1) n [] =
              natDigitsAux n (n / 10) (digitChar (n % 10) :: []) from by
            simp [natDigitsAux, h10]]
          exact IH (n / 10) hdiv n _ (by omega)
        rw [hA, IH (n / 10) hdiv f _ (by omega), hB, List.append_assoc]
        simp

theorem natDigits_step (n : ℕ) (h10 : ¬ n < 10) :
    natDigits n = natDigits (n / 10) ++ [digitChar (n % 10)] := by
  unfold natDigits
  rw [show natDigitsAux (n + 1) n [] =
      natDigitsAux n (n / 10) (digitChar (n % 10) :: []) from by
    simp [natDigitsAux, h10]]
  exact natDigitsAux_eq (n / 10) n _ (by omega)

theorem digitChar_toNat (d : ℕ) (hd : d < 10) : (digitChar d).toNat = 48 + d := by
  interval_cases d <;> decide

theorem digitsToNat_concat (l : List Char) (c : Char) :
    digitsToNat (l ++ [c]) = (digitsToNat l) * 10 + (c.toNat - 48) := by
  unfold digitsToNat
  rw [List.foldl_append]
  rfl

theorem natDigits_spec (n : ℕ) :
    natDigits n ≠ [] ∧ (∀ c ∈ natDigits n, 48 ≤ c.toNat ∧ c.toNat ≤ 57) ∧
      digitsToNat (natDigits n) = n := by
  induction n using Nat.strong_induction_on with
  | _ n IH =>
    by_cases h10 : n < 10
    · have hn : natDigits n = [digitChar n] := by simp [natDigits, natDigitsAux, h10]
      rw [hn]
      refine ⟨by simp, ?_, ?_⟩
      · intro c hc
        simp only [List.mem_singleton] at hc
        subst hc
        rw [digitChar_toNat n h10]
        omega
      · show digitStep 0 (digitChar n) = n
        unfold digitStep
        rw [digitChar_toNat n h10]
        omega
    · obtain ⟨h1, h2, h3⟩ := IH (n / 10) (Nat.div_lt_self (by omega) (by omega))
      rw [natDigits_step n h10]
      refine ⟨by simp, ?_, ?_⟩
      · intro c hc
        rcases List.mem_append.mp hc with hc | hc
        · exact h2 c hc
        · simp only [List.mem_singleton] at hc
          subst hc
          rw [digitChar_toNat (n % 10) (by omega)]
          omega
      · rw [digitsToNat_concat, h3, digitChar_toNat (n % 10) (by omega)]
        omega

theorem foldl_digitStep_zeros (k : ℕ) :
    List.foldl digitStep 0 (List.replicate k '0') = 0 := by
  induction k with
  | zero => rfl
  | succ k ih =>
    rw [List.replicate_succ, List.foldl_cons, show digitStep 0 '0' = 0 from by decide]
    exact ih

theorem digitsToNat_zfill (w : ℕ) (l : List Char) :
    digitsToNat (zfill w l) = digitsToNat l := by
  unfold zfill digitsToNat
  rw [List.foldl_append, foldl_digitStep_zeros]

theorem zfill_digits (w : ℕ) (l : List Char)
    (h : ∀ c ∈ l, 48 ≤ c.toNat ∧ c.toNat ≤ 57) :
    ∀ c ∈ zfill w l, 48 ≤ c.toNat ∧ c.toNat ≤ 57 := by
  intro c hc
  rcases List.mem_append.mp hc with hc | hc
  · rw [List.eq_of_mem_replicate hc]
    decide
  · exact h c hc

theorem zfill_ne_nil (w : ℕ) (l : List Char) (h : l ≠ []) : zfill w l ≠ [] := by
  simp [zfill, h]

/-! ### Lemmas about character-list splitting -/

theorem splitOnChar_no_sep (c : Char) (l : List Char) (h : ∀ x ∈ l, x ≠ c) :
    splitOnChar c l = [l] := by
  induction l with
  | nil => rfl
  | cons x xs ih =>
    have hx : x ≠ c := h x (by simp)
    rw [splitOnChar, if_neg hx, ih (fun y hy => h y (by simp [hy]))]

theorem splitOnChar_sep_append (c : Char) (a b : List Char) (h : ∀ x ∈ a, x ≠ c) :
    splitOnChar c (a ++ c :: b) = a :: splitOnChar c b := by
  induction a with
  | nil => simp [splitOnChar]
  | cons x xs ih =>
    have hx : x ≠ c := h x (by simp)
    rw [List.cons_append, splitOnChar, if_neg hx,
      ih (fun y hy => h y (by simp [hy]))]

/-! ### Structure of `format_timestamp` output -/

theorem pyMod_floor_3600 (s : ℚ) : ⌊pyMod s 3600⌋ = ⌊s⌋ % 3600 := by
  have h := floor_pyMod s 3600 (by norm_num)
  rwa [show ((3600 : ℤ) : ℚ) = (3600 : ℚ) from by norm_num] at h

theorem pyMod_floor_60 (s : ℚ) : ⌊pyMod s 60⌋ = ⌊s⌋ % 60 := by
  have h := floor_pyMod s 60 (by norm_num)
  rwa [show ((60 : ℤ) : ℚ) = (60 : ℚ) from by norm_num] at h

/-- The four numeric components of `format_timestamp` for a nonnegative
seconds value: hours, minutes, seconds from the floor of the value, and the
millisecond field as the truncated fractional part. -/
theorem format_timestamp_structure (s : ℚ) (hs : 0 ≤ s) (sep : Char) :
    ∃ h m sec ms : ℕ,
      format_timestamp s sep =
        String.mk (zfill 2 (natDigits h) ++ ':' :: (zfill 2 (natDigits m) ++ ':' ::
          (zfill 2 (natDigits sec) ++ sep :: zfill 3 (natDigits ms)))) ∧
      m < 60 ∧ sec < 60 ∧ ms < 1000 ∧
      ((3600 * h + 60 * m + sec : ℕ) : ℤ) = ⌊s⌋ ∧
      (ms : ℚ) ≤ (s - (⌊s⌋ : ℚ)) * 1000 ∧ (s - (⌊s⌋ : ℚ)) * 1000 < (ms : ℚ) + 1 := by
  have hn : (0 : ℤ) ≤ ⌊s⌋ := Int.le_floor.mpr (by exact_mod_cast hs)
  have hfrac : (0 : ℚ) ≤ s - (⌊s⌋ : ℚ) := sub_nonneg.mpr (Int.floor_le s)
  have hH : pyTrunc (pyFloorDiv s 3600) = ⌊s⌋ / 3600 := by
    unfold pyFloorDiv
    rw [pyTrunc_intCast]
    have h := floor_div_pos s 3600 (by norm_num)
    rwa [show ((3600 : ℤ) : ℚ) = (3600 : ℚ) from by norm_num] at h
  have hM : pyTrunc (pyFloorDiv (pyMod s 3600) 60) = ⌊s⌋ % 3600 / 60 := by
    unfold pyFloorDiv
    rw [pyTrunc_intCast]
    have h := floor_div_pos (pyMod s 3600) 60 (by norm_num)
    rw [show ((60 : ℤ) : ℚ) = (60 : ℚ) from by norm_num] at h
    rw [h, pyMod_floor_3600]
  have hS : pyTrunc (pyMod s 60) = ⌊s⌋ % 60 := by
    rw [pyTrunc_eq_floor (pyMod_nonneg s 60 (by norm_num)), pyMod_floor_60]
  have hMS : pyTrunc ((s - (pyTrunc s : ℚ)) * 1000) = ⌊(s - (⌊s⌋ : ℚ)) * 1000⌋ := by
    rw [pyTrunc_eq_floor hs, pyTrunc_eq_floor (mul_nonneg hfrac (by norm_num))]
  have hHnn : 0 ≤ ⌊s⌋ / 3600 := Int.ediv_nonneg hn (by norm_num)
  have hMnn : 0 ≤ ⌊s⌋ % 3600 / 60 :=
    Int.ediv_nonneg (Int.emod_nonneg _ (by norm_num)) (by norm_num)
  have hSnn : 0 ≤ ⌊s⌋ % 60 := Int.emod_nonneg _ (by norm_num)
  have hMSnn : 0 ≤ ⌊(s - (⌊s⌋ : ℚ)) * 1000⌋ :=
    Int.le_floor.mpr (by exact_mod_cast mul_nonneg hfrac (by norm_num : (0:ℚ) ≤ 1000))
  have hMScast : ((⌊(s - (⌊s⌋ : ℚ)) * 1000⌋.natAbs : ℚ)) =
      ((⌊(s - (⌊s⌋ : ℚ)) * 1000⌋ : ℤ) : ℚ) := by
    rw [Int.cast_natAbs]
    exact_mod_cast congrArg (fun z : ℤ => (z : ℚ)) (abs_of_nonneg hMSnn)
  refine ⟨(⌊s⌋ / 3600).natAbs, (⌊s⌋ % 3600 / 60).natAbs, (⌊s⌋ % 60).natAbs,
    (⌊(s - (⌊s⌋ : ℚ)) * 1000⌋).natAbs, ?_, ?_, ?_, ?_, ?_, ?_, ?_⟩
  · unfold format_timestamp
    rw [hH, hM, hS, hMS]
    unfold pyFormatInt
    rw [if_neg (not_lt.mpr hHnn), if_neg (not_lt.mpr hMnn), if_neg (not_lt.mpr hSnn),
      if_neg (not_lt.mpr hMSnn)]
  · omega
  · omega
  · have hlt : ⌊(s - (⌊s⌋ : ℚ)) * 1000⌋ < 1000 := by
      rw [Int.floor_lt]
      have h1 : s - (⌊s⌋ : ℚ) < 1 := by
        have := Int.lt_floor_add_one s
        linarith
      calc (s - (⌊s⌋ : ℚ)) * 1000 < 1 * 1000 :=
            mul_lt_mul_of_pos_right h1 (by norm_num)
        _ = ((1000 : ℤ) : ℚ) := by norm_num
    omega
  · push_cast [Int.natAbs_of_nonneg hHnn, Int.natAbs_of_nonneg hMnn,
      Int.natAbs_of_nonneg hSnn]
    omega
  · rw [hMScast]
    exact Int.floor_le _
  · rw [hMScast]
    exact Int.lt_floor_add_one _

/-- Evaluation helper: once the floor of the seconds value and the truncated
millisecond field are known, the formatted string is determined. -/
theorem format_timestamp_eval (s : ℚ) (sep : Char) (n ms : ℕ)
    (hs : 0 ≤ s) (hn : ⌊s⌋ = (n : ℤ)) (hms : ⌊(s - (n : ℚ)) * 1000⌋ = (ms : ℤ)) :
    format_timestamp s sep =
      String.mk (zfill 2 (natDigits (n / 3600)) ++ ':' ::
        (zfill 2 (natDigits (n % 3600 / 60)) ++ ':' ::
          (zfill 2 (natDigits (n % 60)) ++ sep :: zfill 3 (natDigits ms)))) := by
  obtain ⟨h, m, sec, ms', heq, hm, hsec, hms', hdec, hlo, hhi⟩ :=
    format_timestamp_structure s hs sep
  have hcast : ((n : ℚ)) = ((⌊s⌋ : ℤ) : ℚ) := by rw [hn]; push_cast; rfl
  have hms'' : ((ms' : ℤ)) = ⌊(s - (n : ℚ)) * 1000⌋ := by
    rw [hcast]
    refine (Int.floor_eq_iff.mpr ⟨?_, ?_⟩).symm
    · push_cast
      exact hlo
    · push_cast
      exact hhi
  have hmseq : ms' = ms := by
    have := hms''.trans hms
    exact_mod_cast this
  have hdec' : 3600 * h + 60 * m + sec = n := by
    have : ((3600 * h + 60 * m + sec : ℕ) : ℤ) = (n : ℤ) := by rw [hdec, hn]
    exact_mod_cast this
  have hh : h = n / 3600 := by omega
  have hm' : m = n % 3600 / 60 := by omega
  have hsec' : sec = n % 60 := by omega
  rw [heq, hh, hm', hsec', hmseq]

/-! ### Round trip: parsing a formatted timestamp -/

theorem isDigitChar_of_bounds {c : Char} (h : 48 ≤ c.toNat ∧ c.toNat ≤ 57) :
    isDigitChar c = true := by
  simp only [isDigitChar, Bool.and_eq_true, decide_eq_true_eq]
  omega

theorem ne_of_digit_bounds {c d : Char} (hc : 48 ≤ c.toNat ∧ c.toNat ≤ 57)
    (hd : ¬(48 ≤ d.toNat ∧ d.toNat ≤ 57)) : c ≠ d := by
  intro h
  exact hd (h ▸ hc)

theorem parse_timestamp_eval (sep : Char) (A B C D : List Char)
    (hA : A ≠ []) (hA' : ∀ c ∈ A, 48 ≤ c.toNat ∧ c.toNat ≤ 57)
    (hB : B ≠ []) (hB' : ∀ c ∈ B, 48 ≤ c.toNat ∧ c.toNat ≤ 57)
    (hC : C ≠ []) (hC' : ∀ c ∈ C, 48 ≤ c.toNat ∧ c.toNat ≤ 57)
    (hD : D ≠ []) (hD' : ∀ c ∈ D, 48 ≤ c.toNat ∧ c.toNat ≤ 57)
    (hsep1 : sep ≠ ':') (hsep2 : ¬(48 ≤ sep.toNat ∧ sep.toNat ≤ 57)) :
    parse_timestamp sep (String.mk (A ++ ':' :: (B ++ ':' :: (C ++ sep :: D)))) =
      some ((digitsToNat A : ℚ) * 3600 + (digitsToNat B : ℚ) * 60 +
        (digitsToNat C : ℚ) + (digitsToNat D : ℚ) / 1000) := by
  have hcolon : ¬(48 ≤ (':').toNat ∧ (':').toNat ≤ 57) := by decide
  have hrest : ∀ x ∈ C ++ sep :: D, x ≠ ':' := by
    intro x hx
    rcases List.mem_append.mp hx with hx | hx
    · exact ne_of_digit_bounds (hC' x hx) hcolon
    · rcases List.mem_cons.mp hx with hx | hx
      · exact hx ▸ hsep1
      · exact ne_of_digit_bounds (hD' x hx) hcolon
  have hCne : ∀ x ∈ C, x ≠ sep := fun x hx => ne_of_digit_bounds (hC' x hx) hsep2
  have hDne : ∀ x ∈ D, x ≠ sep := fun x hx => ne_of_digit_bounds (hD' x hx) hsep2
  have split1 : splitOnChar ':' (A ++ ':' :: (B ++ ':' :: (C ++ sep :: D))) =
      [A, B, C ++ sep :: D] := by
    rw [splitOnChar_sep_append ':' A _
        (fun x hx => ne_of_digit_bounds (hA' x hx) hcolon),
      splitOnChar_sep_append ':' B _
        (fun x hx => ne_of_digit_bounds (hB' x hx) hcolon),
      splitOnChar_no_sep ':' _ hrest]
  have split2 : splitOnChar sep (C ++ sep :: D) = [C, D] := by
    rw [splitOnChar_sep_append sep C D hCne, splitOnChar_no_sep sep D hDne]
  unfold parse_timestamp
  rw [show (String.mk (A ++ ':' :: (B ++ ':' :: (C ++ sep :: D)))).data =
      A ++ ':' :: (B ++ ':' :: (C ++ sep :: D)) from rfl, split1]
  simp only [split2]
  rw [if_pos]
  refine ⟨hA, ?_, hB, ?_, hC, ?_, hD, ?_⟩ <;>
    · rw [List.all_eq_true]
      intro x hx
      first
      | exact isDigitChar_of_bounds (hA' x hx)
      | exact isDigitChar_of_bounds (hB' x hx)
      | exact isDigitChar_of_bounds (hC' x hx)
      | exact isDigitChar_of_bounds (hD' x hx)

/-- Round trip of a single nonnegative seconds value through
`format_timestamp` and `parse_timestamp`: the reconstructed value
undershoots the original by less than one millisecond. -/
theorem format_parse_round_trip (s : ℚ) (hs : 0 ≤ s) (sep : Char)
    (hsep1 : sep ≠ ':') (hsep2 : ¬(48 ≤ sep.toNat ∧ sep.toNat ≤ 57)) :
    ∃ p : ℚ, parse_timestamp sep (format_timestamp s sep) = some p ∧
      p ≤ s ∧ s - p < 1 / 1000 := by
  obtain ⟨h, m, sec, ms, heq, hm, hsec, hms, hdec, hlo, hhi⟩ :=
    format_timestamp_structure s hs sep
  obtain ⟨hne_h, hdig_h, hval_h⟩ := natDigits_spec h
  obtain ⟨hne_m, hdig_m, hval_m⟩ := natDigits_spec m
  obtain ⟨hne_s, hdig_s, hval_s⟩ := natDigits_spec sec
  obtain ⟨hne_ms, hdig_ms, hval_ms⟩ := natDigits_spec ms
  rw [heq]
  rw [parse_timestamp_eval sep _ _ _ _
    (zfill_ne_nil _ _ hne_h) (zfill_digits _ _ hdig_h)
    (zfill_ne_nil _ _ hne_m) (zfill_digits _ _ hdig_m)
    (zfill_ne_nil _ _ hne_s) (zfill_digits _ _ hdig_s)
    (zfill_ne_nil _ _ hne_ms) (zfill_digits _ _ hdig_ms)
    hsep1 hsep2]
  rw [digitsToNat_zfill, digitsToNat_zfill, digitsToNat_zfill, digitsToNat_zfill,
    hval_h, hval_m, hval_s, hval_ms]
  refine ⟨_, rfl, ?_, ?_⟩
  · have hfloor : ((h : ℚ)) * 3600 + (m : ℚ) * 60 + (sec : ℚ) = ((⌊s⌋ : ℤ) : ℚ) := by
      rw [← hdec]
      push_cast
      ring
    have hms1000 : (ms : ℚ) / 1000 ≤ s - (⌊s⌋ : ℚ) := by
      rw [div_le_iff₀ (by norm_num : (0:ℚ) < 1000)]
      exact hlo
    linarith
  · have hfloor : ((h : ℚ)) * 3600 + (m : ℚ) * 60 + (sec : ℚ) = ((⌊s⌋ : ℤ) : ℚ) := by
      rw [← hdec]
      push_cast
      ring
    have hms1000 : s - (⌊s⌋ : ℚ) < ((ms : ℚ) + 1) / 1000 := by
      rw [lt_div_iff₀ (by norm_num : (0:ℚ) < 1000)]
      exact hhi
    linarith

/-! ### Structural lemmas about the serializers -/

theorem stringAppend_assoc (a b c : String) : a ++ b ++ c = a ++ (b ++ c) := by
  apply String.ext
  simp [String.data_append]

theorem srtBody_append (i : ℕ) (xs ys : List Segment) :
    srtBody i (xs ++ ys) = srtBody i xs ++ srtBody (i + xs.length) ys := by
  induction xs generalizing i with
  | nil =>
    show srtBody i ys = "" ++ srtBody (i + 0) ys
    apply String.ext
    simp [String.data_append]
  | cons x xs ih =>
    rw [List.cons_append, srtBody, srtBody, ih (i + 1),
      show i + (x :: xs).length = i + 1 + xs.length from by
        simp [List.length_cons]; omega]
    apply String.ext
    simp [String.data_append, List.append_assoc]

theorem vttBody_append (xs ys : List Segment) :
    vttBody (xs ++ ys) = vttBody xs ++ vttBody ys := by
  induction xs with
  | nil =>
    show vttBody ys = "" ++ vttBody ys
    apply String.ext
    simp [String.data_append]
  | cons x xs ih =>
    rw [List.cons_append, vttBody, vttBody, ih]
    apply String.ext
    simp [String.data_append, List.append_assoc]

/-! ### Substring test versus `List.IsInfix` -/

theorem startsWithList_iff (p : List Char) :
    ∀ l, startsWithList p l = true ↔ p <+: l := by
  induction p with
  | nil =>
    intro l
    simp [startsWithList]
  | cons x xs ih =>
    intro l
    cases l with
    | nil => simp [startsWithList]
    | cons y ys =>
      simp [startsWithList, Bool.and_eq_true, decide_eq_true_eq, ih,
        List.cons_prefix_cons]

theorem containsSubList_iff (p : List Char) :
    ∀ l, containsSubList p l = true ↔ p <:+: l := by
  intro l
  induction l with
  | nil => simp [containsSubList, List.isEmpty_iff]
  | cons x xs ih =>
    rw [containsSubList]
    simp only [Bool.or_eq_true, startsWithList_iff, ih]
    constructor
    · rintro (h | h)
      · exact h.isInfix
      · exact h.trans (List.suffix_cons x xs).isInfix
    · rintro ⟨s', t', he⟩
      cases s' with
      | nil =>
        exact Or.inl ⟨t', by simpa using he⟩
      | cons y ys =>
        refine Or.inr ⟨ys, t', ?_⟩
        have h2 : y :: (ys ++ p ++ t') = x :: xs := by
          simpa [List.append_assoc] using he
        exact (List.cons_eq_cons.mp h2).2

/-! ### Claims -/

/-- C1: `is_group_allowed` returns true unconditionally when the allow-list
is empty; when the allow-list is non-empty it returns true iff the chat
identifier is a member, with no normalization of sign or magnitude and no
exception for any chat type. -/
theorem c1_is_group_allowed (id : ℤ) (allowlist : List ℤ) :
    (allowlist = [] → is_group_allowed id allowlist = true) ∧
    (allowlist ≠ [] → (is_group_allowed id allowlist = true ↔ id ∈ allowlist)) := by
  constructor
  · intro h
    subst h
    rfl
  · intro h
    unfold is_group_allowed
    rw [if_neg (by simpa [List.isEmpty_iff] using h)]
    simp [List.contains]

theorem c1_is_group_allowed_witness :
    is_group_allowed 5 [] = true ∧
      (is_group_allowed 5 [3, 5] = true ↔ (5 : ℤ) ∈ [3, 5]) :=
  ⟨(c1_is_group_allowed 5 []).1 rfl, (c1_is_group_allowed 5 [3, 5]).2 (by decide)⟩

/-- C3: the allow-list parse splits on commas, trims each token, converts
each token to an integer, silently discards tokens failing conversion while
keeping the rest in order, and yields the empty sequence on all-empty or
whitespace-only input: `"invalid, not-a-number"` parses to `[]`,
`"  -5 , 7  "` parses to `[-5, 7]`, a partially invalid input keeps the
valid tokens in order, and the result never has more entries than there
are comma-separated tokens. -/
theorem c3_get_allowed_group_ids :
    get_allowed_group_ids "invalid, not-a-number" = [] ∧
    get_allowed_group_ids "  -5 , 7  " = [-5, 7] ∧
    get_allowed_group_ids "" = [] ∧
    get_allowed_group_ids "   " = [] ∧
    get_allowed_group_ids "1, x, -2" = [1, -2] ∧
    ∀ raw : String,
      (get_allowed_group_ids raw).length ≤ (splitOnChar ',' raw.data).length := by
  refine ⟨by decide, by decide, by decide, by decide, by decide, ?_⟩
  intro raw
  exact List.length_filterMap_le _ _

/-- C2: `is_addressed` is true unconditionally in private chats; in any
other chat type it is true iff the literal substring `"@" + handle` occurs
in the text, or a `"mention"` entity's declared slice equals
`"@" + handle`, or a `"text_mention"` entity's resolved user handle equals
`handle`; and the full admission predicate is the conjunction with
`has_reply` and the audio-like payload flag, so a bare mention with no
reply, or a reply with no mention in a non-private chat, is not
processed. -/
theorem c2_mention_admission :
    (∀ (text : String) (entities : List MessageEntity) (handle : String),
      is_addressed "private" text entities handle = true) ∧
    (∀ (chat_type text : String) (entities : List MessageEntity) (handle : String),
      chat_type ≠ "private" →
      (is_addressed chat_type text entities handle = true ↔
        (("@" ++ handle).data <:+: text.data ∨
          (∃ e ∈ entities, e.type = "mention" ∧
            sliceAt text e.offset e.length = "@" ++ handle) ∨
          (∃ e ∈ entities, e.type = "text_mention" ∧ e.user = some handle)))) ∧
    (∀ (chat_type text : String) (entities : List MessageEntity) (handle : String)
      (audio : Bool),
      should_process chat_type text entities handle false audio = false) ∧
    (∀ (chat_type text : String) (entities : List MessageEntity) (handle : String)
      (audio : Bool),
      is_addressed chat_type text entities handle = false →
      should_process chat_type text entities handle true audio = false) := by
  have hany : ∀ (text : String) (ents : List MessageEntity) (handle : String),
      (ents.any (entityMatches text handle) = true) ↔
        ((∃ e ∈ ents, e.type = "mention" ∧
            sliceAt text e.offset e.length = "@" ++ handle) ∨
          (∃ e ∈ ents, e.type = "text_mention" ∧ e.user = some handle)) := by
    intro text ents handle
    rw [List.any_eq_true]
    constructor
    · rintro ⟨e, he, hm⟩
      unfold entityMatches at hm
      by_cases h1 : e.type = "mention"
      · rw [if_pos h1] at hm
        exact Or.inl ⟨e, he, h1, by simpa using hm⟩
      · rw [if_neg h1] at hm
        by_cases h2 : e.type = "text_mention"
        · rw [if_pos h2] at hm
          exact Or.inr ⟨e, he, h2, by simpa using hm⟩
        · rw [if_neg h2] at hm
          exact absurd hm (by simp)
    · rintro (⟨e, he, h1, hs⟩ | ⟨e, he, h2, hu⟩)
      · refine ⟨e, he, ?_⟩
        unfold entityMatches
        rw [if_pos h1]
        simpa using hs
      · refine ⟨e, he, ?_⟩
        unfold entityMatches
        by_cases h1 : e.type = "mention"
        · rw [h1] at h2
          exact absurd h2 (by decide)
        · rw [if_neg h1, if_pos h2]
          simpa using hu
  refine ⟨fun text ents handle => rfl, ?_, ?_, ?_⟩
  · intro ct text ents handle hct
    have hpat : ("@" ++ handle).data = '@' :: handle.data := by
      rw [String.data_append]
      rfl
    unfold is_addressed
    rw [if_neg hct]
    by_cases htext : text = ""
    · subst htext
      rw [if_neg (by simp)]
      rw [hany]
      have hinf : ¬ ("@" ++ handle).data <:+: ("" : String).data := by
        rw [hpat]
        simp [show ("" : String).data = [] from rfl]
      exact ((or_iff_right hinf)).symm
    · by_cases hc : containsSubList ("@" ++ handle).data text.data = true
      · rw [if_pos]
        · exact (iff_of_true rfl (Or.inl ((containsSubList_iff _ _).mp hc)))
        · simp only [Bool.and_eq_true, Bool.not_eq_true', beq_eq_false_iff_ne, ne_eq]
          exact ⟨htext, hc⟩
      · rw [if_neg]
        · rw [hany]
          have hinf : ¬ ("@" ++ handle).data <:+: text.data := fun h =>
            hc ((containsSubList_iff _ _).mpr h)
          exact ((or_iff_right hinf)).symm
        · simp only [Bool.and_eq_true, Bool.not_eq_true', beq_eq_false_iff_ne, ne_eq]
          rintro ⟨-, hc'⟩
          exact hc hc'
  · intro ct text ents handle audio
    simp [should_process]
  · intro ct text ents handle audio haddr
    simp [should_process, haddr]

theorem c2_mention_admission_witness :
    should_process "group" "transcribe this" [] "bot1" true true = false :=
  c2_mention_admission.2.2.2 "group" "transcribe this" [] "bot1" true (by decide)

/-- C4: for every nonnegative seconds value and separator,
`format_timestamp` produces `HH:MM:SS<sep>mmm` with each field zero-padded
(2, 2, 2 and 3 digits; the hour field simply grows past two digits at 100
hours or more), `mmm` being the truncated — not rounded — millisecond part;
in particular `format_timestamp(3725.4567, ',')` is `"01:02:05,456"` and
`format_timestamp(0.0, '.')` is `"00:00:00.000"`. -/
theorem c4_format_timestamp :
    (∀ s : ℚ, 0 ≤ s → ∀ sep : Char,
      ∃ h m sec ms : ℕ,
        format_timestamp s sep =
          String.mk (zfill 2 (natDigits h) ++ ':' :: (zfill 2 (natDigits m) ++ ':' ::
            (zfill 2 (natDigits sec) ++ sep :: zfill 3 (natDigits ms)))) ∧
        m < 60 ∧ sec < 60 ∧ ms < 1000 ∧
        ((3600 * h + 60 * m + sec : ℕ) : ℤ) = ⌊s⌋ ∧
        (ms : ℚ) ≤ (s - (⌊s⌋ : ℚ)) * 1000 ∧ (s - (⌊s⌋ : ℚ)) * 1000 < (ms : ℚ) + 1) ∧
    format_timestamp (37254567 / 10000) ',' = "01:02:05,456" ∧
    format_timestamp 0 '.' = "00:00:00.000" := by
  refine ⟨fun s hs sep => format_timestamp_structure s hs sep, ?_, ?_⟩
  · rw [format_timestamp_eval (37254567 / 10000 : ℚ) ',' 3725 456 (by norm_num)
      (by rw [Int.floor_eq_iff]; norm_num) (by rw [Int.floor_eq_iff]; norm_num)]
    decide
  · rw [format_timestamp_eval (0 : ℚ) '.' 0 0 (by norm_num)
      (by rw [Int.floor_eq_iff]; norm_num) (by rw [Int.floor_eq_iff]; norm_num)]
    decide

theorem c4_format_timestamp_witness :
    ∃ h m sec ms : ℕ,
      format_timestamp (1 / 2 : ℚ) ',' =
        String.mk (zfill 2 (natDigits h) ++ ':' :: (zfill 2 (natDigits m) ++ ':' ::
          (zfill 2 (natDigits sec) ++ ',' :: zfill 3 (natDigits ms)))) ∧
      m < 60 ∧ sec < 60 ∧ ms < 1000 ∧
      ((3600 * h + 60 * m + sec : ℕ) : ℤ) = ⌊(1 / 2 : ℚ)⌋ ∧
      (ms : ℚ) ≤ ((1 / 2 : ℚ) - (⌊(1 / 2 : ℚ)⌋ : ℚ)) * 1000 ∧
      ((1 / 2 : ℚ) - (⌊(1 / 2 : ℚ)⌋ : ℚ)) * 1000 < (ms : ℚ) + 1 :=
  c4_format_timestamp.1 (1 / 2) (by norm_num) ','

/-- C5: on the two segments `[{0.0, 1.5, "Hi"}, {1.5, 3.0, "there"}]` the
SRT serialization is exactly two numbered blocks — index line, comma
timestamp line, trimmed text, blank line — and the VTT serialization is the
`WEBVTT` header plus a blank line followed by the same blocks without index
lines and with dot timestamps; every VTT output begins with
`"WEBVTT\n\n"`. -/
theorem c5_serialization :
    to_srt [⟨0, 3 / 2, "Hi"⟩, ⟨3 / 2, 3, "there"⟩] =
      "1\n00:00:00,000 --> 00:00:01,500\nHi\n\n2\n00:00:01,500 --> 00:00:03,000\nthere\n\n" ∧
    to_vtt [⟨0, 3 / 2, "Hi"⟩, ⟨3 / 2, 3, "there"⟩] =
      "WEBVTT\n\n00:00:00.000 --> 00:00:01.500\nHi\n\n00:00:01.500 --> 00:00:03.000\nthere\n\n" ∧
    ∀ segments : List Segment, ∃ rest : String,
      to_vtt segments = "WEBVTT\n\n" ++ rest := by
  have e1 : format_timestamp (0 : ℚ) ',' = "00:00:00,000" := by
    rw [format_timestamp_eval (0 : ℚ) ',' 0 0 (by norm_num)
      (by rw [Int.floor_eq_iff]; norm_num) (by rw [Int.floor_eq_iff]; norm_num)]
    decide
  have e2 : format_timestamp (3 / 2 : ℚ) ',' = "00:00:01,500" := by
    rw [format_timestamp_eval (3 / 2 : ℚ) ',' 1 500 (by norm_num)
      (by rw [Int.floor_eq_iff]; norm_num) (by rw [Int.floor_eq_iff]; norm_num)]
    decide
  have e3 : format_timestamp (3 : ℚ) ',' = "00:00:03,000" := by
    rw [format_timestamp_eval (3 : ℚ) ',' 3 0 (by norm_num)
      (by rw [Int.floor_eq_iff]; norm_num) (by rw [Int.floor_eq_iff]; norm_num)]
    decide
  have e4 : format_timestamp (0 : ℚ) '.' = "00:00:00.000" := by
    rw [format_timestamp_eval (0 : ℚ) '.' 0 0 (by norm_num)
      (by rw [Int.floor_eq_iff]; norm_num) (by rw [Int.floor_eq_iff]; norm_num)]
    decide
  have e5 : format_timestamp (3 / 2 : ℚ) '.' = "00:00:01.500" := by
    rw [format_timestamp_eval (3 / 2 : ℚ) '.' 1 500 (by norm_num)
      (by rw [Int.floor_eq_iff]; norm_num) (by rw [Int.floor_eq_iff]; norm_num)]
    decide
  have e6 : format_timestamp (3 : ℚ) '.' = "00:00:03.000" := by
    rw [format_timestamp_eval (3 : ℚ) '.' 3 0 (by norm_num)
      (by rw [Int.floor_eq_iff]; norm_num) (by rw [Int.floor_eq_iff]; norm_num)]
    decide
  refine ⟨?_, ?_, fun segments => ⟨vttBody segments, rfl⟩⟩
  · show srtBody 1 [⟨0, 3 / 2, "Hi"⟩, ⟨3 / 2, 3, "there"⟩] = _
    simp only [srtBody, e1, e2, e3]
    decide
  · show "WEBVTT\n\n" ++ vttBody [⟨0, 3 / 2, "Hi"⟩, ⟨3 / 2, 3, "there"⟩] = _
    simp only [vttBody, e4, e5, e6]
    decide

/-- C6: `transcribe_with_chutes` returns the failure indicator and sends no
request when the audio file is absent (or unreadable), returns failure on
every non-200 status, on a transport exception and on a body-decoding
failure, performs at most one request per call (exactly one when the file
exists and is readable), and always returns either a value or the explicit
failure indicator. -/
theorem c6_transcribe (env : ChutesEnv) (language : Option String) :
    (env.audio_exists = false → transcribe_with_chutes env language = (none, [])) ∧
    (env.read_ok = false → transcribe_with_chutes env language = (none, [])) ∧
    (env.post_exn = true → (transcribe_with_chutes env language).1 = none) ∧
    (env.status ≠ 200 → (transcribe_with_chutes env language).1 = none) ∧
    (env.json_ok = none → (transcribe_with_chutes env language).1 = none) ∧
    ((transcribe_with_chutes env language).2.length ≤ 1) ∧
    (env.audio_exists = true → env.read_ok = true →
      (transcribe_with_chutes env language).2.length = 1) ∧
    ((transcribe_with_chutes env language).1 = none ∨
      ∃ r, (transcribe_with_chutes env language).1 = some r) := by
  obtain ⟨ae, ro, pe, st, jo⟩ := env
  cases ae <;> cases ro <;> cases pe <;> rcases jo with _ | r <;>
    by_cases hst : st = 200 <;>
    simp [transcribe_with_chutes, hst]

theorem c6_transcribe_witness :
    transcribe_with_chutes ⟨false, true, false, 200, none⟩ none = (none, []) :=
  (c6_transcribe ⟨false, true, false, 200, none⟩ none).1 rfl

/-- C7: a missing `segments` key is treated exactly like an empty segment
sequence, and the returned mapping contains only the formats actually
written: `txt` iff the text is non-empty, `srt`/`vtt` iff the segment
sequence is non-empty, and a result with no text and no segments produces
no artifacts at all. -/
theorem c7_save_outputs (result : ChutesResult) (dir base : String) :
    (("txt" ∈ (save_chutes_outputs result dir base).created_files.map Prod.fst) ↔
      result.text.getD "" ≠ "") ∧
    (("srt" ∈ (save_chutes_outputs result dir base).created_files.map Prod.fst) ↔
      result.segments.getD [] ≠ []) ∧
    (("vtt" ∈ (save_chutes_outputs result dir base).created_files.map Prod.fst) ↔
      result.segments.getD [] ≠ []) ∧
    (save_chutes_outputs ⟨result.text, none⟩ dir base =
      save_chutes_outputs ⟨result.text, some []⟩ dir base) ∧
    ((result.text = none ∨ result.text = some "") →
      (result.segments = none ∨ result.segments = some []) →
      (save_chutes_outputs result dir base).created_files = []) := by
  obtain ⟨t, segs⟩ := result
  refine ⟨?_, ?_, ?_, rfl, ?_⟩
  · by_cases ht : t.getD "" = "" <;> by_cases hseg : segs.getD [] = [] <;>
      simp [save_chutes_outputs, ht, hseg]
  · by_cases ht : t.getD "" = "" <;> by_cases hseg : segs.getD [] = [] <;>
      simp [save_chutes_outputs, ht, hseg]
  · by_cases ht : t.getD "" = "" <;> by_cases hseg : segs.getD [] = [] <;>
      simp [save_chutes_outputs, ht, hseg]
  · rintro (rfl | rfl) (rfl | rfl) <;> simp [save_chutes_outputs]

theorem c7_save_outputs_witness :
    (save_chutes_outputs ⟨none, none⟩ "o" "b").created_files = [] :=
  (c7_save_outputs ⟨none, none⟩ "o" "b").2.2.2.2 (Or.inl rfl) (Or.inl rfl)

/-- C8: a segment violating the well-formedness invariant
(`start > end`) does not make the serializers fail: it is serialized like
any other segment, as one complete SRT block (with its sequential index)
and one complete VTT block, with the surrounding segments unaffected. -/
theorem c8_violating_segment (pre post : List Segment) (s e : ℚ) (t : String)
    (hviol : e < s) :
    to_srt (pre ++ ⟨s, e, t⟩ :: post) =
      srtBody 1 pre ++
        (String.mk (natDigits (pre.length + 1)) ++ "\n" ++ format_timestamp s ',' ++
          " --> " ++ format_timestamp e ',' ++ "\n" ++ strip t ++ "\n\n") ++
        srtBody (pre.length + 2) post ∧
    to_vtt (pre ++ ⟨s, e, t⟩ :: post) =
      "WEBVTT\n\n" ++ (vttBody pre ++
        (format_timestamp s '.' ++ " --> " ++ format_timestamp e '.' ++ "\n" ++
          strip t ++ "\n\n") ++ vttBody post) := by
  constructor
  · show srtBody 1 (pre ++ ⟨s, e, t⟩ :: post) = _
    rw [srtBody_append 1 pre (⟨s, e, t⟩ :: post),
      show 1 + pre.length = pre.length + 1 from Nat.add_comm 1 _]
    simp only [srtBody]
    apply String.ext
    simp [String.data_append, List.append_assoc]
  · show "WEBVTT\n\n" ++ vttBody (pre ++ ⟨s, e, t⟩ :: post) = _
    rw [vttBody_append pre (⟨s, e, t⟩ :: post)]
    simp only [vttBody]
    apply String.ext
    simp [String.data_append, List.append_assoc]

theorem c8_violating_segment_witness :
    (3 / 2 : ℚ) < 3 ∧
    to_srt [⟨3, 3 / 2, "x"⟩] =
      srtBody 1 [] ++
        (String.mk (natDigits 1) ++ "\n" ++ format_timestamp 3 ',' ++ " --> " ++
          format_timestamp (3 / 2) ',' ++ "\n" ++ strip "x" ++ "\n\n") ++
        srtBody 2 [] :=
  ⟨by norm_num, (c8_violating_segment [] [] 3 (3 / 2) "x" (by norm_num)).1⟩

/-- C9: for well-formed segments, re-parsing the serialized SRT/VTT
timestamps reconstructs each segment's start and end to millisecond
precision: the parsed value differs from the original by less than
`1/1000`. -/
theorem c9_round_trip (segments : List Segment)
    (hwf : ∀ seg ∈ segments, 0 ≤ seg.start ∧ seg.start ≤ seg.stop)
    (sep : Char) (hsep : sep = ',' ∨ sep = '.') :
    ∀ seg ∈ segments, ∃ ps pe : ℚ,
      parse_timestamp sep (format_timestamp seg.start sep) = some ps ∧
      parse_timestamp sep (format_timestamp seg.stop sep) = some pe ∧
      |seg.start - ps| < 1 / 1000 ∧ |seg.stop - pe| < 1 / 1000 := by
  intro seg hseg
  obtain ⟨hs0, hse⟩ := hwf seg hseg
  have hsep1 : sep ≠ ':' := by
    rcases hsep with h | h <;> subst h <;> decide
  have hsep2 : ¬(48 ≤ sep.toNat ∧ sep.toNat ≤ 57) := by
    rcases hsep with h | h <;> subst h <;> decide
  obtain ⟨ps, hps, hple, hplt⟩ := format_parse_round_trip seg.start hs0 sep hsep1 hsep2
  obtain ⟨pe, hpe, hpele, hpelt⟩ :=
    format_parse_round_trip seg.stop (le_trans hs0 hse) sep hsep1 hsep2
  refine ⟨ps, pe, hps, hpe, ?_, ?_⟩
  · rw [abs_of_nonneg (by linarith)]
    linarith
  · rw [abs_of_nonneg (by linarith)]
    linarith

theorem c9_round_trip_witness :
    ∃ ps pe : ℚ,
      parse_timestamp ',' (format_timestamp (3 / 2 : ℚ) ',') = some ps ∧
      parse_timestamp ',' (format_timestamp (3 : ℚ) ',') = some pe ∧
      |(3 / 2 : ℚ) - ps| < 1 / 1000 ∧ |(3 : ℚ) - pe| < 1 / 1000 :=
  c9_round_trip [⟨3 / 2, 3, "x"⟩]
    (fun seg hseg => by
      rw [List.mem_singleton] at hseg
      subst hseg
      exact ⟨by norm_num, by norm_num⟩)
    ',' (Or.inl rfl) ⟨3 / 2, 3, "x"⟩ (by simp)

/-- C10: the returned mapping contains `srt` iff it contains `vtt`; both
are present exactly when the segment sequence is non-empty; and in that
case the SRT file is written before the VTT file (they are the last two
writes, in that order). -/
theorem c10_srt_vtt_together (result : ChutesResult) (dir base : String) :
    (("srt" ∈ (save_chutes_outputs result dir base).created_files.map Prod.fst) ↔
      ("vtt" ∈ (save_chutes_outputs result dir base).created_files.map Prod.fst)) ∧
    (("srt" ∈ (save_chutes_outputs result dir base).created_files.map Prod.fst) ↔
      result.segments.getD [] ≠ []) ∧
    (result.segments.getD [] ≠ [] →
      ∃ pre : List (String × String),
        (save_chutes_outputs result dir base).writes =
          pre ++ [(pathJoin dir (base ++ ".srt"), to_srt (result.segments.getD [])),
            (pathJoin dir (base ++ ".vtt"), to_vtt (result.segments.getD []))]) := by
  obtain ⟨t, segs⟩ := result
  by_cases ht : t.getD "" = ""
  · by_cases hseg : segs.getD [] = []
    · refine ⟨?_, ?_, ?_⟩ <;> simp [save_chutes_outputs, ht, hseg]
    · refine ⟨?_, ?_, ?_⟩
      · simp [save_chutes_outputs, ht, hseg]
      · simp [save_chutes_outputs, ht, hseg]
      · intro hne
        refine ⟨[], ?_⟩
        simp [save_chutes_outputs, ht, hseg]
  · by_cases hseg : segs.getD [] = []
    · refine ⟨?_, ?_, ?_⟩ <;> simp [save_chutes_outputs, ht, hseg]
    · refine ⟨?_, ?_, ?_⟩
      · simp [save_chutes_outputs, ht, hseg]
      · simp [save_chutes_outputs, ht, hseg]
      · intro hne
        refine ⟨[(pathJoin dir (base ++ ".txt"), t.getD "")], ?_⟩
        simp [save_chutes_outputs, ht, hseg]

theorem c10_srt_vtt_together_witness :
    ∃ pre : List (String × String),
      (save_chutes_outputs ⟨none, some [⟨0, 0, "a"⟩]⟩ "o" "b").writes =
        pre ++ [(pathJoin "o" ("b" ++ ".srt"), to_srt [⟨0, 0, "a"⟩]),
          (pathJoin "o" ("b" ++ ".vtt"), to_vtt [⟨0, 0, "a"⟩])] :=
  (c10_srt_vtt_together ⟨none, some [⟨0, 0, "a"⟩]⟩ "o" "b").2.2 (by simp)
